import Mathlib

set_option autoImplicit false

namespace PixieStitch

/-- An 8-bit RGBA pixel (`PixelRGBA` in the source). Channels are natural
numbers; every pixel handled by the program keeps them in `0..255`. -/
structure PixelRGBA where
  r : Nat
  g : Nat
  b : Nat
  a : Nat
deriving DecidableEq

def PixelRGBA.black : PixelRGBA := ⟨0, 0, 0, 255⟩

def PixelRGBA.white : PixelRGBA := ⟨255, 255, 255, 255⟩

def PixelRGBA.transparent : PixelRGBA := ⟨0, 0, 0, 0⟩

/-- A bitmap: width, height and a dense row-major pixel buffer
(`Bitmap` in the source). -/
structure Bitmap where
  width : Nat
  height : Nat
  data : List PixelRGBA
deriving DecidableEq

/-- A bitmap is well formed when its buffer holds exactly `width * height` pixels. -/
def Bitmap.Wf (bmp : Bitmap) : Prop := bmp.data.length = bmp.width * bmp.height

def Bitmap.new_empty : Bitmap := ⟨0, 0, []⟩

def Bitmap.new_filled (width height : Nat) (color : PixelRGBA) : Bitmap :=
  ⟨width, height, List.replicate (width * height) color⟩

/-- Bounds-checked pixel read. An out-of-range read is a programmer error in the
source (library assert); it is modelled as returning the transparent pixel. -/
def Bitmap.get (bmp : Bitmap) (x y : Int) : PixelRGBA :=
  if 0 ≤ x ∧ x < (bmp.width : Int) ∧ 0 ≤ y ∧ y < (bmp.height : Int) then
    bmp.data.getD (y.toNat * bmp.width + x.toNat) PixelRGBA.transparent
  else PixelRGBA.transparent

/-- Bounds-checked pixel write; out-of-range writes are modelled as a no-op. -/
def Bitmap.set (bmp : Bitmap) (x y : Int) (color : PixelRGBA) : Bitmap :=
  if 0 ≤ x ∧ x < (bmp.width : Int) ∧ 0 ≤ y ∧ y < (bmp.height : Int) then
    { bmp with data := bmp.data.set (y.toNat * bmp.width + x.toNat) color }
  else bmp

/-- An exact fraction with positive denominator, kept unreduced so that
comparisons stay within integer arithmetic. -/
structure Frac where
  num : Int
  den : Int
deriving DecidableEq

/-- Exact strict order on fractions with positive denominators, by cross
multiplication. -/
def Frac.lt (a b : Frac) : Prop := a.num * b.den < b.num * a.den

/-- Exact equality of fractions with positive denominators, by cross
multiplication. -/
def Frac.eqv (a b : Frac) : Prop := a.num * b.den = b.num * a.den

instance (a b : Frac) : Decidable (Frac.lt a b) :=
  inferInstanceAs (Decidable (a.num * b.den < b.num * a.den))

instance (a b : Frac) : Decidable (Frac.eqv a b) :=
  inferInstanceAs (Decidable (a.num * b.den = b.num * a.den))

/-- Modelled from the spec: RGB→HSL conversion used by cottontail's
`PixelRGBA::compare_by_hue_luminosity_saturation` (the comparator itself lives
in the external cottontail library, not in this repository). Standard HSL
formulas over exact fractions; returns `(hue, luminosity, saturation)` where
hue is in degrees (denominator `delta`), luminosity in `0..1` (denominator
510) and saturation in `0..1` (denominator `255 - |max+min-255|`). -/
def pixelHSL (c : PixelRGBA) : Frac × Frac × Frac :=
  let r : Int := c.r
  let g : Int := c.g
  let b : Int := c.b
  let cmax := max r (max g b)
  let cmin := min r (min g b)
  let delta := cmax - cmin
  let lum : Frac := ⟨cmax + cmin, 510⟩
  if delta = 0 then (⟨0, 1⟩, lum, ⟨0, 1⟩)
  else
    let hue6num :=
      if cmax = r then g - b
      else if cmax = g then b - r + 2 * delta
      else r - g + 4 * delta
    let huenum := 60 * hue6num
    let hue : Frac :=
      if huenum < 0 then ⟨huenum + 360 * delta, delta⟩ else ⟨huenum, delta⟩
    let sat : Frac := ⟨delta, 255 - |cmax + cmin - 255|⟩
    (hue, lum, sat)

/-- Modelled from the spec: the perceptual order behind
`compare_by_hue_luminosity_saturation` (cottontail) — primary key hue,
secondary luminosity, tertiary saturation. -/
def hlsLe (x y : PixelRGBA) : Prop :=
  Frac.lt (pixelHSL x).1 (pixelHSL y).1 ∨
    (Frac.eqv (pixelHSL x).1 (pixelHSL y).1 ∧
      (Frac.lt (pixelHSL x).2.1 (pixelHSL y).2.1 ∨
        (Frac.eqv (pixelHSL x).2.1 (pixelHSL y).2.1 ∧
          (Frac.lt (pixelHSL x).2.2 (pixelHSL y).2.2 ∨
            Frac.eqv (pixelHSL x).2.2 (pixelHSL y).2.2))))

instance : DecidableRel hlsLe := fun x y => by
  unfold hlsLe
  infer_instance

/-- `ColorInfo` from the source: a palette entry. -/
structure ColorInfo where
  color : PixelRGBA
  count : Nat
  symbol : Bitmap
  symbol_alphanum : Bitmap
  stitches_premultiplied : List Bitmap
deriving DecidableEq

/-- The entry order of the palette map (`IndexMap` preserves insertion order);
sorting compares the keys of two entries. -/
def entryLe (x y : PixelRGBA × ColorInfo) : Prop := hlsLe x.1 y.1

instance : DecidableRel entryLe := fun x y =>
  inferInstanceAs (Decidable (hlsLe x.1 y.1))

/-- One step of palette accumulation: `color_mappings.entry(*pixel).or_insert_with(...)`
followed by `entry.count += 1`. A fresh entry starts at count 0 and is then
incremented, so it appears with count 1; an existing entry is bumped in place,
preserving insertion order (`IndexMap` appends new keys at the end). -/
def paletteInsertPixel : List (PixelRGBA × ColorInfo) → PixelRGBA →
    List (PixelRGBA × ColorInfo)
  | [], p =>
    [(p, { color := p, count := 1, symbol := Bitmap.new_empty,
           symbol_alphanum := Bitmap.new_empty, stitches_premultiplied := [] })]
  | (k, info) :: rest, p =>
    if k = p then (k, { info with count := info.count + 1 }) :: rest
    else (k, info) :: paletteInsertPixel rest p

/-- `image_extract_colors_and_counts`: scan all pixels, skip fully transparent
ones (`pixel.a == 0`), count occurrences per exact RGBA key, then sort the
entries by the perceptual hue/luminosity/saturation comparator. -/
def image_extract_colors_and_counts (image : Bitmap) :
    List (PixelRGBA × ColorInfo) :=
  let accumulated := image.data.foldl
    (fun acc pixel => if pixel.a = 0 then acc else paletteInsertPixel acc pixel) []
  List.insertionSort entryLe accumulated

theorem paletteInsertPixel_forall {P : PixelRGBA × ColorInfo → Prop}
    (bump : ∀ k info, P (k, info) → P (k, { info with count := info.count + 1 }))
    (acc : List (PixelRGBA × ColorInfo)) (p : PixelRGBA)
    (hacc : ∀ e ∈ acc, P e)
    (hp : P (p, { color := p, count := 1, symbol := Bitmap.new_empty,
                  symbol_alphanum := Bitmap.new_empty, stitches_premultiplied := [] })) :
    ∀ e ∈ paletteInsertPixel acc p, P e := by
  induction acc with
  | nil =>
    intro e he
    simp only [paletteInsertPixel, List.mem_singleton] at he
    exact he ▸ hp
  | cons hd tl ih =>
    obtain ⟨k, info⟩ := hd
    intro e he
    simp only [paletteInsertPixel] at he
    by_cases hk : k = p
    · simp only [if_pos hk, List.mem_cons] at he
      rcases he with he | he
      · exact he ▸ bump k info (hacc (k, info) (List.mem_cons_self _ _))
      · exact hacc e (List.mem_cons_of_mem _ he)
    · simp only [if_neg hk, List.mem_cons] at he
      rcases he with he | he
      · exact he ▸ hacc (k, info) (List.mem_cons_self _ _)
      · exact ih (fun e' he' => hacc e' (List.mem_cons_of_mem _ he')) e he

theorem palette_accumulate_forall {P : PixelRGBA × ColorInfo → Prop}
    (bump : ∀ k info, P (k, info) → P (k, { info with count := info.count + 1 }))
    (fresh : ∀ p : PixelRGBA, p.a ≠ 0 →
      P (p, { color := p, count := 1, symbol := Bitmap.new_empty,
              symbol_alphanum := Bitmap.new_empty, stitches_premultiplied := [] })) :
    ∀ (pixels : List PixelRGBA) (acc : List (PixelRGBA × ColorInfo)),
      (∀ e ∈ acc, P e) →
      ∀ e ∈ pixels.foldl
        (fun acc pixel => if pixel.a = 0 then acc else paletteInsertPixel acc pixel) acc,
        P e := by
  intro pixels
  induction pixels with
  | nil => intro acc hacc e he; exact hacc e he
  | cons p rest ih =>
    intro acc hacc e he
    simp only [List.foldl_cons] at he
    by_cases hp : p.a = 0
    · rw [if_pos hp] at he
      exact ih acc hacc e he
    · rw [if_neg hp] at he
      exact ih _ (paletteInsertPixel_forall bump acc p hacc (fresh p hp)) e he

theorem palette_accumulate_all_transparent (pixels : List PixelRGBA)
    (h : ∀ p ∈ pixels, p.a = 0) :
    pixels.foldl
      (fun acc pixel => if pixel.a = 0 then acc else paletteInsertPixel acc pixel)
      [] = [] := by
  induction pixels with
  | nil => rfl
  | cons p rest ih =>
    simp only [List.foldl_cons]
    rw [if_pos (h p (List.mem_cons_self _ _))]
    exact ih (fun q hq => h q (List.mem_cons_of_mem _ hq))

/-- Modelled from the spec: cottontail `Color::to_relative_luminance` — a
standard Rec.-709-style weighted sum over channels normalized to `0..1`
(the conversion `Color::from_pixelrgba` divides each channel by 255). -/
def relativeLuminance (c : PixelRGBA) : ℚ :=
  (2126 * (c.r : ℚ) + 7152 * (c.g : ℚ) + 722 * (c.b : ℚ)) / (10000 * 255)

/-- The index pairs `(y, x)` visited by a nested `for y in 0..height
{ for x in 0..width { .. } }` loop, in loop order. -/
def loopPairs (height width : Nat) : List (Int × Int) :=
  (List.range height).flatMap
    (fun (y : Nat) => (List.range width).map (fun (x : Nat) => ((y : Int), (x : Int))))

/-- `blit_symbol`: sample the destination pixel under the stamp origin, choose
black ink when its relative luminance exceeds 0.2 and white ink otherwise, then
write the ink at every symbol pixel that differs from the mask color. -/
def blit_symbol (symbol_bitmap image : Bitmap) (pos : Int × Int)
    (mask_color : PixelRGBA) : Bitmap :=
  let dest_color := image.get pos.1 pos.2
  let blit_color :=
    if relativeLuminance dest_color > 0.2 then PixelRGBA.black else PixelRGBA.white
  (loopPairs symbol_bitmap.height symbol_bitmap.width).foldl
    (fun img yx =>
      if symbol_bitmap.get yx.2 yx.1 ≠ mask_color then
        img.set (pos.1 + yx.2) (pos.2 + yx.1) blit_color
      else img)
    image

theorem Bitmap.width_set (bmp : Bitmap) (x y : Int) (c : PixelRGBA) :
    (bmp.set x y c).width = bmp.width := by
  unfold Bitmap.set; split <;> rfl

theorem Bitmap.height_set (bmp : Bitmap) (x y : Int) (c : PixelRGBA) :
    (bmp.set x y c).height = bmp.height := by
  unfold Bitmap.set; split <;> rfl

theorem Bitmap.wf_set (bmp : Bitmap) (x y : Int) (c : PixelRGBA) (h : bmp.Wf) :
    (bmp.set x y c).Wf := by
  unfold Bitmap.set
  split
  · simpa [Bitmap.Wf] using h
  · exact h

theorem mem_loopPairs (height width : Nat) (py px : Int) :
    (py, px) ∈ loopPairs height width ↔
      0 ≤ py ∧ py < (height : Int) ∧ 0 ≤ px ∧ px < (width : Int) := by
  constructor
  · intro h
    unfold loopPairs at h
    rw [List.mem_flatMap] at h
    obtain ⟨a, ha, h⟩ := h
    rw [List.mem_range] at ha
    rw [List.mem_map] at h
    obtain ⟨b, hb, h⟩ := h
    rw [List.mem_range] at hb
    rw [Prod.mk.injEq] at h
    obtain ⟨h1, h2⟩ := h
    subst h1
    subst h2
    refine ⟨?_, ?_, ?_, ?_⟩ <;> omega
  · intro h
    unfold loopPairs
    rw [List.mem_flatMap]
    refine ⟨py.toNat, ?_, ?_⟩
    · rw [List.mem_range]; omega
    · rw [List.mem_map]
      refine ⟨px.toNat, ?_, ?_⟩
      · rw [List.mem_range]; omega
      · rw [Prod.mk.injEq]
        exact ⟨by omega, by omega⟩

theorem Bitmap.get_set (bmp : Bitmap) (hwf : bmp.Wf) (x y u v : Int) (c : PixelRGBA)
    (hx1 : 0 ≤ x) (hx2 : x < (bmp.width : Int))
    (hy1 : 0 ≤ y) (hy2 : y < (bmp.height : Int))
    (hu1 : 0 ≤ u) (hu2 : u < (bmp.width : Int))
    (hv1 : 0 ≤ v) (hv2 : v < (bmp.height : Int)) :
    (bmp.set x y c).get u v = if x = u ∧ y = v then c else bmp.get u v := by
  have hW : 0 < bmp.width := by omega
  have hidx : v.toNat * bmp.width + u.toNat < bmp.data.length := by
    rw [hwf]
    calc v.toNat * bmp.width + u.toNat < v.toNat * bmp.width + bmp.width := by omega
    _ = (v.toNat + 1) * bmp.width := by ring
    _ ≤ bmp.height * bmp.width := Nat.mul_le_mul_right _ (by omega)
    _ = bmp.width * bmp.height := Nat.mul_comm _ _
  have hdata : (bmp.set x y c).data =
      bmp.data.set (y.toNat * bmp.width + x.toNat) c := by
    unfold Bitmap.set
    rw [if_pos ⟨hx1, hx2, hy1, hy2⟩]
  simp only [Bitmap.get, Bitmap.width_set, Bitmap.height_set, hdata]
  rw [if_pos ⟨hu1, hu2, hv1, hv2⟩]
  by_cases heq : x = u ∧ y = v
  · obtain ⟨rfl, rfl⟩ := heq
    rw [if_pos ⟨rfl, rfl⟩]
    rw [List.getD_eq_getElem?_getD, List.getElem?_set_eq_of_lt c hidx,
      Option.getD_some]
  · rw [if_neg heq]
    have hne : y.toNat * bmp.width + x.toNat ≠ v.toNat * bmp.width + u.toNat := by
      intro habs
      have hx' : x.toNat < bmp.width := by omega
      have hu' : u.toNat < bmp.width := by omega
      have habs' : bmp.width * y.toNat + x.toNat = bmp.width * v.toNat + u.toNat := by
        rw [Nat.mul_comm bmp.width y.toNat, Nat.mul_comm bmp.width v.toNat]
        exact habs
      have hxeq : x.toNat = u.toNat := by
        have hmod := congrArg (fun n => n % bmp.width) habs'
        simpa [Nat.mul_add_mod, Nat.mod_eq_of_lt hx', Nat.mod_eq_of_lt hu']
          using hmod
      have hyeq : y.toNat = v.toNat := by
        have hdiv := congrArg (fun n => n / bmp.width) habs'
        simpa [Nat.mul_add_div hW, Nat.div_eq_of_lt hx', Nat.div_eq_of_lt hu']
          using hdiv
      exact heq ⟨by omega, by omega⟩
    rw [List.getD_eq_getElem?_getD, List.getElem?_set_ne hne,
      ← List.getD_eq_getElem?_getD, if_pos ⟨hu1, hu2, hv1, hv2⟩]

theorem blit_fold_get (cond : Int × Int → Prop) [DecidablePred cond]
    (ink : PixelRGBA) (pos : Int × Int) :
    ∀ (L : List (Int × Int)) (img : Bitmap), img.Wf →
    ∀ (u v : Int), 0 ≤ u → u < (img.width : Int) → 0 ≤ v → v < (img.height : Int) →
    (∀ yx ∈ L, 0 ≤ pos.1 + yx.2 ∧ pos.1 + yx.2 < (img.width : Int) ∧
      0 ≤ pos.2 + yx.1 ∧ pos.2 + yx.1 < (img.height : Int)) →
    (L.foldl
      (fun im yx =>
        if cond yx then im.set (pos.1 + yx.2) (pos.2 + yx.1) ink else im)
      img).get u v =
      if ∃ yx ∈ L, cond yx ∧ pos.1 + yx.2 = u ∧ pos.2 + yx.1 = v then ink
      else img.get u v := by
  intro L
  induction L with
  | nil =>
    intro img hwf u v hu1 hu2 hv1 hv2 _
    simp
  | cons yx0 L ih =>
    intro img hwf u v hu1 hu2 hv1 hv2 hbounds
    obtain ⟨hb1, hb2, hb3, hb4⟩ := hbounds yx0 (List.mem_cons_self _ _)
    have hboundsL : ∀ yx ∈ L, 0 ≤ pos.1 + yx.2 ∧ pos.1 + yx.2 < (img.width : Int) ∧
        0 ≤ pos.2 + yx.1 ∧ pos.2 + yx.1 < (img.height : Int) :=
      fun yx h => hbounds yx (List.mem_cons_of_mem _ h)
    simp only [List.foldl_cons]
    by_cases hc : cond yx0
    · rw [if_pos hc]
      have hwf' := Bitmap.wf_set img (pos.1 + yx0.2) (pos.2 + yx0.1) ink hwf
      have hrw := ih (img.set (pos.1 + yx0.2) (pos.2 + yx0.1) ink) hwf' u v
        (by simpa [Bitmap.width_set] using hu1)
        (by simpa [Bitmap.width_set] using hu2)
        (by simpa [Bitmap.height_set] using hv1)
        (by simpa [Bitmap.height_set] using hv2)
        (by simpa [Bitmap.width_set, Bitmap.height_set] using hboundsL)
      rw [hrw]
      rw [Bitmap.get_set img hwf _ _ _ _ ink hb1 hb2 hb3 hb4 hu1 hu2 hv1 hv2]
      by_cases hex : ∃ yx ∈ L, cond yx ∧ pos.1 + yx.2 = u ∧ pos.2 + yx.1 = v
      · obtain ⟨yx, hmem, hrest⟩ := hex
        rw [if_pos ⟨yx, hmem, hrest⟩,
          if_pos ⟨yx, List.mem_cons_of_mem _ hmem, hrest⟩]
      · rw [if_neg hex]
        by_cases hhit : pos.1 + yx0.2 = u ∧ pos.2 + yx0.1 = v
        · rw [if_pos hhit,
            if_pos ⟨yx0, List.mem_cons_self _ _, hc, hhit.1, hhit.2⟩]
        · rw [if_neg hhit, if_neg ?_]
          rintro ⟨yx, hmem, hcnd, hu, hv⟩
          rcases List.mem_cons.mp hmem with rfl | hmem'
          · exact hhit ⟨hu, hv⟩
          · exact hex ⟨yx, hmem', hcnd, hu, hv⟩
    · rw [if_neg hc]
      rw [ih img hwf u v hu1 hu2 hv1 hv2 hboundsL]
      by_cases hex : ∃ yx ∈ L, cond yx ∧ pos.1 + yx.2 = u ∧ pos.2 + yx.1 = v
      · rw [if_pos hex, if_pos ?_]
        obtain ⟨yx, hmem, hrest⟩ := hex
        exact ⟨yx, List.mem_cons_of_mem _ hmem, hrest⟩
      · rw [if_neg hex, if_neg ?_]
        rintro ⟨yx, hmem, hcnd, hu, hv⟩
        rcases List.mem_cons.mp hmem with rfl | hmem'
        · exact hc hcnd
        · exact hex ⟨yx, hmem', hcnd, hu, hv⟩

/-- `TILE_SIZE` from the source (one pattern cell is 16×16 output pixels). -/
def TILE_SIZE : Nat := 16

/-- An 8-bit channel as a rational in `0..1`. -/
def chanQ (c : Nat) : ℚ := (c : ℚ) / 255

/-- Quantize a rational back to an 8-bit channel (clamped to `0..1`, floor). -/
def quantChan (q : ℚ) : Nat := (Int.floor (max 0 (min q 1) * 255)).toNat

/-- Rec.709-style luminance of a normalized rgb triple. -/
def lumQ (r g b : ℚ) : ℚ := (2126 * r + 7152 * g + 722 * b) / 10000

/-- The blend modes used by the stitch-tinting and preview code. -/
inductive ColorBlendMode where
  | normal
  | multiply
  | screen
  | luminosity
deriving DecidableEq

/-- Clip one channel back into `0..1` while preserving luminance
(standard compositing `ClipColor`). -/
def clipChan (l n x c : ℚ) : ℚ :=
  let c1 := if n < 0 then l + (c - l) * l / (l - n) else c
  if 1 < x then l + (c1 - l) * (1 - l) / (x - l) else c1

/-- Replace the luminance of an rgb triple (standard compositing `SetLum`). -/
def setLum (r g b l : ℚ) : ℚ × ℚ × ℚ :=
  let d := l - lumQ r g b
  let r1 := r + d
  let g1 := g + d
  let b1 := b + d
  let lum := lumQ r1 g1 b1
  let n := min r1 (min g1 b1)
  let x := max r1 (max g1 b1)
  (clipChan lum n x r1, clipChan lum n x g1, clipChan lum n x b1)

/-- Modelled from the spec: the per-channel arithmetic of cottontail's
`blit_to_alpha_blended_premultiplied` (the blend implementation is in the
external cottontail library). Channels are normalized to `0..1`; Normal is the
premultiplied "over", Multiply is `src*dst`, Screen is `1-(1-src)(1-dst)`,
Luminosity replaces the destination luminance with the source luminance while
preserving hue/saturation; each non-Normal result is composited over the
destination by the source alpha, and the result is floor-quantized to 8 bits. -/
def blendPixelPremultiplied (mode : ColorBlendMode) (s d : PixelRGBA) : PixelRGBA :=
  let sa := chanQ s.a
  let sr := chanQ s.r
  let sg := chanQ s.g
  let sb := chanQ s.b
  let dr := chanQ d.r
  let dg := chanQ d.g
  let db := chanQ d.b
  let outA := quantChan (sa + chanQ d.a * (1 - sa))
  let compose := fun (bch dch : ℚ) => quantChan (bch * sa + dch * (1 - sa))
  match mode with
  | ColorBlendMode.normal =>
    ⟨quantChan (sr + dr * (1 - sa)), quantChan (sg + dg * (1 - sa)),
     quantChan (sb + db * (1 - sa)), outA⟩
  | ColorBlendMode.multiply =>
    ⟨compose (sr * dr) dr, compose (sg * dg) dg, compose (sb * db) db, outA⟩
  | ColorBlendMode.screen =>
    ⟨compose (1 - (1 - sr) * (1 - dr)) dr, compose (1 - (1 - sg) * (1 - dg)) dg,
     compose (1 - (1 - sb) * (1 - db)) db, outA⟩
  | ColorBlendMode.luminosity =>
    let rgb := setLum dr dg db (lumQ sr sg sb)
    ⟨compose rgb.1 dr, compose rgb.2.1 dg, compose rgb.2.2 db, outA⟩

/-- A blit at `Vec2i::zero` between equal-sized buffers, as the stitch-tinting
code performs: a pointwise blend of the two buffers. -/
def blitAlphaBlendedPremultiplied (src dst : Bitmap) (mode : ColorBlendMode) :
    Bitmap :=
  ⟨dst.width, dst.height, List.zipWith (blendPixelPremultiplied mode) src.data dst.data⟩

/-- Modelled from the spec: `to_premultiplied_alpha` — color channels
pre-scaled by the alpha channel (8-bit integer arithmetic). -/
def PixelRGBA.premultiply (p : PixelRGBA) : PixelRGBA :=
  ⟨p.r * p.a / 255, p.g * p.a / 255, p.b * p.a / 255, p.a⟩

def Bitmap.to_premultiplied_alpha (bmp : Bitmap) : Bitmap :=
  ⟨bmp.width, bmp.height, bmp.data.map PixelRGBA.premultiply⟩

/-- Modelled from the spec: `masked_by_premultiplied_alpha` — scale every
channel by the mask's alpha so anything outside the stitch silhouette is
discarded. -/
def Bitmap.masked_by_premultiplied_alpha (bmp mask : Bitmap) : Bitmap :=
  ⟨bmp.width, bmp.height,
    List.zipWith
      (fun p m =>
        ⟨p.r * m.a / 255, p.g * m.a / 255, p.b * m.a / 255, p.a * m.a / 255⟩)
      bmp.data mask.data⟩

/-- The per-channel shading divisor of the stitch luminosity layer:
`6 + (8.0 * percent * percent) as u8` with
`percent = (r + g + b) / (3.0 * 255.0)`; the quadratic term is truncated to an
integer (the `as u8` cast truncates toward zero) before the addition. -/
def luminosity_shading_divisor (color : PixelRGBA) : Nat :=
  6 + (Int.floor
    (8 * (((color.r : ℚ) + (color.g : ℚ) + (color.b : ℚ)) / (3 * 255)) *
      (((color.r : ℚ) + (color.g : ℚ) + (color.b : ℚ)) / (3 * 255)))).toNat

/-- The luminosity-layer tinting loop of `create_color_mappings_from_image`:
all four channels of every pixel are divided (integer division) by the
shading divisor. -/
def tintLuminosityLayer (layer : Bitmap) (color : PixelRGBA) : Bitmap :=
  ⟨layer.width, layer.height,
    layer.data.map (fun pixel =>
      ⟨pixel.r / luminosity_shading_divisor color,
       pixel.g / luminosity_shading_divisor color,
       pixel.b / luminosity_shading_divisor color,
       pixel.a / luminosity_shading_divisor color⟩)⟩

/-- One tinted stitch texture (the body of the stitch-tiles loop in
`create_color_mappings_from_image`): screen a fixed mid-gray layer over the
base, multiply a flat layer of the palette color, overlay the shaded luminance
texture with the Luminosity blend, then mask the result back to the base
texture's alpha. -/
def buildStitch (stitch_image_premultiplied stitch_image_luminance : Bitmap)
    (color : PixelRGBA) : Bitmap :=
  let screen_layer :=
    (Bitmap.new_filled stitch_image_premultiplied.width
      stitch_image_premultiplied.height ⟨105, 109, 128, 255⟩).to_premultiplied_alpha
  let stitch1 :=
    blitAlphaBlendedPremultiplied screen_layer stitch_image_premultiplied
      ColorBlendMode.screen
  let color_layer :=
    (Bitmap.new_filled stitch_image_premultiplied.width
      stitch_image_premultiplied.height color).to_premultiplied_alpha
  let stitch2 := blitAlphaBlendedPremultiplied color_layer stitch1 ColorBlendMode.multiply
  let luminosity_layer := tintLuminosityLayer stitch_image_luminance color
  let stitch3 :=
    blitAlphaBlendedPremultiplied luminosity_layer stitch2 ColorBlendMode.luminosity
  stitch3.masked_by_premultiplied_alpha stitch_image_premultiplied

/-- `create_color_mappings_from_image`: extract the palette, assert that each
symbol pool has at least as many symbols as the palette has colors (a failed
assert aborts the process producing no output, modelled as `none`), assign the
Nth symbol of each pool to the Nth palette entry positionally, and build the
tinted stitch textures for every entry whose color has nonzero alpha. -/
def create_color_mappings_from_image (image : Bitmap)
    (symbols symbols_alphanum : List Bitmap)
    (stitch_images_premultiplied_alpha
      stitch_images_luminance_premultiplied_alpha : List Bitmap) :
    Option (List (PixelRGBA × ColorInfo)) :=
  let color_mappings := image_extract_colors_and_counts image
  if symbols.length < color_mappings.length then none
  else if symbols_alphanum.length < color_mappings.length then none
  else
    let with_symbols := List.zipWith
      (fun e s => (e.1, { e.2 with symbol := s })) color_mappings symbols
    let with_alphanum := List.zipWith
      (fun e s => (e.1, { e.2 with symbol_alphanum := s })) with_symbols symbols_alphanum
    some (with_alphanum.map (fun e =>
      if e.2.color.a ≠ 0 then
        let stitches := (List.zip stitch_images_premultiplied_alpha
          stitch_images_luminance_premultiplied_alpha).map
          (fun si => buildStitch si.1 si.2 e.2.color)
        (e.1, { e.2 with stitches_premultiplied := stitches })
      else e))

/-- The fixed alphanumeric symbol characters: digits 1–9 then letters A–Z
(a leading 0 is excluded because it prints like an 8). -/
def alphanumeric_chars : List Char := "123456789ABCDEFGHIJKLMNOPQRSTUVWXYZ".toList

/-- cottontail `block_centered_in_block` (modelled from its use here): the
offset that centers a block inside a container. -/
def block_centered_in_block (block_size container_size : Int) : Int :=
  Int.tdiv (container_size - block_size) 2

/-- `create_alphanumeric_symbols`: for each of the 35 characters, blit the
font's glyph bitmap centered into a transparent TILE_SIZE×TILE_SIZE tile with
a transparent mask color (the glyph bitmaps come from the embedded font,
supplied here as a function on characters). -/
def create_alphanumeric_symbols (font_glyph : Char → Bitmap) : List Bitmap :=
  alphanumeric_chars.map (fun c =>
    let bitmap := Bitmap.new_filled TILE_SIZE TILE_SIZE PixelRGBA.transparent
    let glyph_bitmap := font_glyph c
    let pos := (block_centered_in_block glyph_bitmap.width (TILE_SIZE : Int),
                block_centered_in_block glyph_bitmap.height (TILE_SIZE : Int))
    blit_symbol glyph_bitmap bitmap pos PixelRGBA.transparent)

/-- C6: `blit_symbol` chooses its ink by sampling the single destination pixel
at the stamp origin — black ink when that pixel's relative luminance exceeds
0.2, white ink otherwise — then skips every symbol pixel equal to the mask
color and writes every other symbol pixel with the chosen ink, regardless of
the symbol bitmap's own color. -/
theorem blit_symbol_ink_choice_and_mask (symbol image : Bitmap) (pos : Int × Int)
    (mask : PixelRGBA) (hwf : image.Wf)
    (h1 : 0 ≤ pos.1) (h2 : 0 ≤ pos.2)
    (h3 : pos.1 + (symbol.width : Int) ≤ (image.width : Int))
    (h4 : pos.2 + (symbol.height : Int) ≤ (image.height : Int))
    (x y : Nat) (hx : x < symbol.width) (hy : y < symbol.height) :
    (blit_symbol symbol image pos mask).get (pos.1 + (x : Int)) (pos.2 + (y : Int)) =
      if symbol.get (x : Int) (y : Int) ≠ mask then
        (if relativeLuminance (image.get pos.1 pos.2) > 0.2 then PixelRGBA.black
          else PixelRGBA.white)
      else image.get (pos.1 + (x : Int)) (pos.2 + (y : Int)) := by
  have hbounds : ∀ yx ∈ loopPairs symbol.height symbol.width,
      0 ≤ pos.1 + yx.2 ∧ pos.1 + yx.2 < (image.width : Int) ∧
      0 ≤ pos.2 + yx.1 ∧ pos.2 + yx.1 < (image.height : Int) := by
    intro yx hmem
    obtain ⟨py, px⟩ := yx
    rw [mem_loopPairs] at hmem
    exact ⟨by omega, by omega, by omega, by omega⟩
  unfold blit_symbol
  rw [blit_fold_get (fun yx => symbol.get yx.2 yx.1 ≠ mask)
    (if relativeLuminance (image.get pos.1 pos.2) > 0.2 then PixelRGBA.black
      else PixelRGBA.white)
    pos (loopPairs symbol.height symbol.width) image hwf
    (pos.1 + (x : Int)) (pos.2 + (y : Int))
    (by omega) (by omega) (by omega) (by omega) hbounds]
  by_cases hs : symbol.get (x : Int) (y : Int) ≠ mask
  · rw [if_pos hs, if_pos ?_]
    exact ⟨((y : Int), (x : Int)),
      (mem_loopPairs symbol.height symbol.width _ _).mpr
        ⟨by omega, by omega, by omega, by omega⟩, hs, rfl, rfl⟩
  · rw [if_neg hs, if_neg ?_]
    rintro ⟨⟨py, px⟩, hmem, hcond, hux, hvy⟩
    have hpx : px = (x : Int) := by omega
    have hpy : py = (y : Int) := by omega
    subst hpx
    subst hpy
    exact hs hcond

/-- Witness for C6 at a concrete input: stamping a 1×1 black symbol with white
mask color over a 1×1 white image writes black ink (white has relative
luminance 1 > 0.2). -/
theorem blit_symbol_witness :
    (blit_symbol ⟨1, 1, [PixelRGBA.black]⟩ ⟨1, 1, [PixelRGBA.white]⟩ (0, 0)
        PixelRGBA.white).get 0 0 = PixelRGBA.black := by
  have h := blit_symbol_ink_choice_and_mask ⟨1, 1, [PixelRGBA.black]⟩
    ⟨1, 1, [PixelRGBA.white]⟩ (0, 0) PixelRGBA.white rfl
    (by decide) (by decide) (by decide) (by decide) 0 0 (by decide) (by decide)
  refine h.trans ?_
  rw [if_pos ?_, if_pos ?_]
  · norm_num [relativeLuminance, Bitmap.get, PixelRGBA.white, List.getD]
  · decide

/-- C1: every entry of the extracted palette has a key with nonzero alpha and a
count of at least 1; an image whose pixels are all fully transparent yields the
empty palette. -/
theorem extract_colors_no_transparent_keys_and_positive_counts (image : Bitmap) :
    (∀ e ∈ image_extract_colors_and_counts image, e.1.a ≠ 0 ∧ 1 ≤ e.2.count) ∧
    ((∀ p ∈ image.data, p.a = 0) → image_extract_colors_and_counts image = []) := by
  constructor
  · intro e he
    have hperm := List.perm_insertionSort entryLe
      (image.data.foldl
        (fun acc pixel => if pixel.a = 0 then acc else paletteInsertPixel acc pixel) [])
    have he' : e ∈ image.data.foldl
        (fun acc pixel => if pixel.a = 0 then acc else paletteInsertPixel acc pixel) [] := by
      exact hperm.mem_iff.mp he
    refine @palette_accumulate_forall (fun e => e.1.a ≠ 0 ∧ 1 ≤ e.2.count)
      ?_ ?_ image.data [] (by simp) e he'
    · intro k info h
      exact ⟨h.1, Nat.le_succ_of_le h.2⟩
    · intro p hp
      exact ⟨hp, Nat.le_refl 1⟩
  · intro h
    unfold image_extract_colors_and_counts
    rw [palette_accumulate_all_transparent image.data h]
    rfl

theorem extract_colors_stitches_empty (image : Bitmap) :
    ∀ e ∈ image_extract_colors_and_counts image,
      e.2.stitches_premultiplied = [] := by
  intro e he
  have hperm := List.perm_insertionSort entryLe
    (image.data.foldl
      (fun acc pixel => if pixel.a = 0 then acc else paletteInsertPixel acc pixel) [])
  have he' : e ∈ image.data.foldl
      (fun acc pixel => if pixel.a = 0 then acc else paletteInsertPixel acc pixel) [] :=
    hperm.mem_iff.mp he
  refine @palette_accumulate_forall (fun e => e.2.stitches_premultiplied = [])
    ?_ ?_ image.data [] (by simp) e he'
  · intro k info h
    exact h
  · intro p hp
    rfl

/-- C2: `create_color_mappings_from_image` fails with a capacity error
(aborting without output, modelled as `none`) exactly when the graphic pool or
the alphanumeric pool has fewer symbols than the palette has colors; otherwise
the Nth palette entry in sorted order receives the Nth symbol of each pool, so
for a pool without duplicate bitmaps no two colors share a symbol; and the
alphanumeric pool built by `create_alphanumeric_symbols` always has exactly 35
symbols. -/
theorem create_color_mappings_assignment_spec (image : Bitmap)
    (symbols symbols_alphanum stitches stitches_lum : List Bitmap) :
    (create_color_mappings_from_image image symbols symbols_alphanum stitches
        stitches_lum = none ↔
      symbols.length < (image_extract_colors_and_counts image).length ∨
      symbols_alphanum.length < (image_extract_colors_and_counts image).length) ∧
    (∀ cm, create_color_mappings_from_image image symbols symbols_alphanum stitches
        stitches_lum = some cm →
      cm.length = (image_extract_colors_and_counts image).length ∧
      (∀ (i : Nat) (hi : i < cm.length)
          (hp : i < (image_extract_colors_and_counts image).length)
          (hs : i < symbols.length) (ha : i < symbols_alphanum.length),
        (cm.get ⟨i, hi⟩).1 =
          ((image_extract_colors_and_counts image).get ⟨i, hp⟩).1 ∧
        (cm.get ⟨i, hi⟩).2.symbol = symbols.get ⟨i, hs⟩ ∧
        (cm.get ⟨i, hi⟩).2.symbol_alphanum = symbols_alphanum.get ⟨i, ha⟩) ∧
      (symbols.Nodup →
        ∀ (i j : Nat) (hi : i < cm.length) (hj : j < cm.length), i ≠ j →
          (cm.get ⟨i, hi⟩).2.symbol ≠ (cm.get ⟨j, hj⟩).2.symbol) ∧
      (symbols_alphanum.Nodup →
        ∀ (i j : Nat) (hi : i < cm.length) (hj : j < cm.length), i ≠ j →
          (cm.get ⟨i, hi⟩).2.symbol_alphanum ≠
            (cm.get ⟨j, hj⟩).2.symbol_alphanum)) ∧
    (∀ font_glyph : Char → Bitmap,
      (create_alphanumeric_symbols font_glyph).length = 35) := by
  refine ⟨?_, ?_, ?_⟩
  · unfold create_color_mappings_from_image
    by_cases h1 : symbols.length < (image_extract_colors_and_counts image).length
    · rw [if_pos h1]
      simp [h1]
    · rw [if_neg h1]
      by_cases h2 : symbols_alphanum.length <
          (image_extract_colors_and_counts image).length
      · rw [if_pos h2]
        simp [h1, h2]
      · rw [if_neg h2]
        simp [h1, h2]
  · intro cm hcm
    unfold create_color_mappings_from_image at hcm
    by_cases h1 : symbols.length < (image_extract_colors_and_counts image).length
    · rw [if_pos h1] at hcm
      exact absurd hcm (by simp)
    · rw [if_neg h1] at hcm
      by_cases h2 : symbols_alphanum.length <
          (image_extract_colors_and_counts image).length
      · rw [if_pos h2] at hcm
        exact absurd hcm (by simp)
      · rw [if_neg h2] at hcm
        have hcm' := Option.some.inj hcm
        subst hcm'
        have hlen : (List.zipWith
            (fun e s => (e.1, { e.2 with symbol_alphanum := s }))
            (List.zipWith (fun e s => (e.1, { e.2 with symbol := s }))
              (image_extract_colors_and_counts image) symbols)
            symbols_alphanum).length =
            (image_extract_colors_and_counts image).length := by
          simp only [List.length_zipWith]
          omega
        refine ⟨?_, ?_, ?_, ?_⟩
        · simpa [List.length_map] using hlen
        · intro i hi hp hs ha
          simp only [List.get_eq_getElem, List.getElem_map, List.getElem_zipWith]
          by_cases hc : (image_extract_colors_and_counts image)[i].2.color.a = 0 <;>
            simp [hc]
        · intro hnd i j hi hj hij
          simp only [List.length_map, List.length_zipWith] at hi hj
          have hi' : i < (image_extract_colors_and_counts image).length := by omega
          have hj' : j < (image_extract_colors_and_counts image).length := by omega
          have hsymi : i < symbols.length := by omega
          have hsymj : j < symbols.length := by omega
          simp only [List.get_eq_getElem, List.getElem_map, List.getElem_zipWith]
          by_cases hci : (image_extract_colors_and_counts image)[i].2.color.a = 0 <;>
            by_cases hcj :
              (image_extract_colors_and_counts image)[j].2.color.a = 0 <;>
            simp [hci, hcj] <;>
            exact fun hh => hij ((List.Nodup.getElem_inj_iff hnd).mp hh)
        · intro hnd i j hi hj hij
          simp only [List.length_map, List.length_zipWith] at hi hj
          have hi' : i < (image_extract_colors_and_counts image).length := by omega
          have hj' : j < (image_extract_colors_and_counts image).length := by omega
          have hsai : i < symbols_alphanum.length := by omega
          have hsaj : j < symbols_alphanum.length := by omega
          simp only [List.get_eq_getElem, List.getElem_map, List.getElem_zipWith]
          by_cases hci : (image_extract_colors_and_counts image)[i].2.color.a = 0 <;>
            by_cases hcj :
              (image_extract_colors_and_counts image)[j].2.color.a = 0 <;>
            simp [hci, hcj] <;>
            exact fun hh => hij ((List.Nodup.getElem_inj_iff hnd).mp hh)
  · intro font_glyph
    simp only [create_alphanumeric_symbols, List.length_map]
    decide

/-- C7: the stitch-tinting shading divisor is `6 + ⌊8·p²⌋` with
`p = (R+G+B)/(3·255)` (the quadratic term truncated to an integer before the
division); it is 6 for black, 14 for white and always within `6..14` for 8-bit
channels; the tinting loop divides all four channels of every pixel of the
luminance texture by it (integer division); and `create_color_mappings_from_image`
applies this tinting (through `buildStitch`) exactly to palette entries whose
color has nonzero alpha. -/
theorem luminosity_divisor_spec :
    luminosity_shading_divisor ⟨0, 0, 0, 255⟩ = 6 ∧
    luminosity_shading_divisor ⟨255, 255, 255, 255⟩ = 14 ∧
    (∀ c : PixelRGBA, c.r ≤ 255 → c.g ≤ 255 → c.b ≤ 255 →
      6 ≤ luminosity_shading_divisor c ∧ luminosity_shading_divisor c ≤ 14) ∧
    (∀ layer color, (tintLuminosityLayer layer color).data =
      layer.data.map (fun pixel =>
        ⟨pixel.r / luminosity_shading_divisor color,
         pixel.g / luminosity_shading_divisor color,
         pixel.b / luminosity_shading_divisor color,
         pixel.a / luminosity_shading_divisor color⟩)) ∧
    (∀ image s a st stl cm,
      create_color_mappings_from_image image s a st stl = some cm →
      ∀ e ∈ cm, e.2.stitches_premultiplied =
        if e.2.color.a ≠ 0 then
          (st.zip stl).map (fun si => buildStitch si.1 si.2 e.2.color)
        else []) := by
  refine ⟨?_, ?_, ?_, ?_, ?_⟩
  · norm_num [luminosity_shading_divisor]
  · norm_num [luminosity_shading_divisor]
    decide
  · intro c hr hg hb
    have hr' : ((c.r : ℚ)) ≤ 255 := by exact_mod_cast hr
    have hg' : ((c.g : ℚ)) ≤ 255 := by exact_mod_cast hg
    have hb' : ((c.b : ℚ)) ≤ 255 := by exact_mod_cast hb
    have hr0 : (0 : ℚ) ≤ (c.r : ℚ) := Nat.cast_nonneg _
    have hg0 : (0 : ℚ) ≤ (c.g : ℚ) := Nat.cast_nonneg _
    have hb0 : (0 : ℚ) ≤ (c.b : ℚ) := Nat.cast_nonneg _
    have hp0 : (0 : ℚ) ≤ ((c.r : ℚ) + c.g + c.b) / (3 * 255) := by positivity
    have hp1 : ((c.r : ℚ) + c.g + c.b) / (3 * 255) ≤ 1 := by
      rw [div_le_one (by norm_num)]
      linarith
    have hsq : 8 * (((c.r : ℚ) + c.g + c.b) / (3 * 255)) *
        (((c.r : ℚ) + c.g + c.b) / (3 * 255)) ≤ 8 := by nlinarith
    have hfloor : Int.floor (8 * (((c.r : ℚ) + c.g + c.b) / (3 * 255)) *
        (((c.r : ℚ) + c.g + c.b) / (3 * 255))) ≤ 8 := by
      have h8 : Int.floor ((8 : ℚ)) = 8 := by norm_num
      calc Int.floor (8 * (((c.r : ℚ) + c.g + c.b) / (3 * 255)) *
          (((c.r : ℚ) + c.g + c.b) / (3 * 255))) ≤ Int.floor ((8 : ℚ)) :=
            Int.floor_le_floor hsq
      _ = 8 := h8
    have htn : (Int.floor (8 * (((c.r : ℚ) + c.g + c.b) / (3 * 255)) *
        (((c.r : ℚ) + c.g + c.b) / (3 * 255)))).toNat ≤ 8 := by
      omega
    unfold luminosity_shading_divisor
    omega
  · intro layer color
    rfl
  · intro image s a st stl cm hcm
    unfold create_color_mappings_from_image at hcm
    by_cases h1 : s.length < (image_extract_colors_and_counts image).length
    · rw [if_pos h1] at hcm
      exact absurd hcm (by simp)
    · rw [if_neg h1] at hcm
      by_cases h2 : a.length < (image_extract_colors_and_counts image).length
      · rw [if_pos h2] at hcm
        exact absurd hcm (by simp)
      · rw [if_neg h2] at hcm
        have hcm' := Option.some.inj hcm
        subst hcm'
        intro e he
        rw [List.mem_map] at he
        obtain ⟨e', he', hfe⟩ := he
        have hstz : e'.2.stitches_premultiplied = [] := by
          rw [List.mem_iff_getElem] at he'
          obtain ⟨i, hilen, hget⟩ := he'
          simp only [List.length_zipWith] at hilen
          have hip : i < (image_extract_colors_and_counts image).length := by omega
          rw [List.getElem_zipWith, List.getElem_zipWith] at hget
          rw [← hget]
          exact extract_colors_stitches_empty image
            ((image_extract_colors_and_counts image).get ⟨i, hip⟩)
            (List.get_mem _ _ hip)
        by_cases hc : e'.2.color.a ≠ 0
        · rw [if_pos hc] at hfe
          subst hfe
          rw [if_pos (by simpa using hc)]
        · rw [if_neg hc] at hfe
          subst hfe
          rw [if_neg hc]
          exact hstz

/-- Witness for C7 at a concrete input: for a mid-gray color the divisor lies
within 6..14. -/
theorem luminosity_divisor_witness :
    6 ≤ luminosity_shading_divisor ⟨100, 100, 100, 255⟩ ∧
    luminosity_shading_divisor ⟨100, 100, 100, 255⟩ ≤ 14 :=
  luminosity_divisor_spec.2.2.1 ⟨100, 100, 100, 255⟩ (by decide) (by decide)
    (by decide)

/-- Witness input for C2: a 1×1 image with a single opaque red pixel. -/
def cWitnessImage : Bitmap := ⟨1, 1, [⟨255, 0, 0, 255⟩]⟩

/-- Witness symbol for C2. -/
def cWitnessSymbol : Bitmap := ⟨1, 1, [PixelRGBA.black]⟩

/-- Witness alphanumeric symbol for C2. -/
def cWitnessSymbolAlpha : Bitmap := ⟨1, 1, [PixelRGBA.white]⟩

/-- The palette entry produced for the witness image of C2. -/
def cWitnessEntry : PixelRGBA × ColorInfo :=
  (⟨255, 0, 0, 255⟩, ⟨⟨255, 0, 0, 255⟩, 1, cWitnessSymbol, cWitnessSymbolAlpha, []⟩)

/-- Witness for C2 at a concrete input: one color and one symbol per pool, so
the mapping succeeds and the first entry receives the first symbol of each
pool. -/
theorem create_color_mappings_witness :
    [cWitnessEntry].length =
      (image_extract_colors_and_counts cWitnessImage).length ∧
    ([cWitnessEntry].get ⟨0, by decide⟩).2.symbol =
      [cWitnessSymbol].get ⟨0, by decide⟩ ∧
    ([cWitnessEntry].get ⟨0, by decide⟩).2.symbol_alphanum =
      [cWitnessSymbolAlpha].get ⟨0, by decide⟩ := by
  have h := (create_color_mappings_assignment_spec cWitnessImage
    [cWitnessSymbol] [cWitnessSymbolAlpha] [] []).2.1 [cWitnessEntry] (by decide)
  have h2 := h.2.1 0 (by decide) (by decide) (by decide) (by decide)
  exact ⟨h.1, h2.2.1, h2.2.2⟩

/-- Witness for C1 at a concrete input: a 2×1 image whose two pixels are fully
transparent extracts to the empty palette. -/
theorem extract_colors_witness :
    image_extract_colors_and_counts ⟨2, 1, [⟨7, 7, 7, 0⟩, ⟨0, 0, 0, 0⟩]⟩ = [] :=
  (extract_colors_no_transparent_keys_and_positive_counts
    ⟨2, 1, [⟨7, 7, 7, 0⟩, ⟨0, 0, 0, 0⟩]⟩).2 (by decide)

theorem tmod_ten_eq_zero_iff (n : Int) :
    (n.tmod 10 == 0) = true ↔ (10 : Int) ∣ n := by
  rw [beq_iff_eq]
  exact ⟨fun h => Int.dvd_of_tmod_eq_zero h, fun h => Int.tmod_eq_zero_of_dvd h⟩

/-- The cells `0 ≤ bitmap_x < width` that receive a thick vertical ten-grid
line in `create_cross_stitch_pattern` (`logical_x % 10 == 0`; Rust `%` on i32
is the truncated remainder `Int.tmod`). -/
def ten_grid_vertical_cells (logical_first_coordinate_x : Int) (width : Nat) :
    List Nat :=
  (List.range width).filter
    (fun (bitmap_x : Nat) =>
      (logical_first_coordinate_x + (bitmap_x : Int)).tmod 10 == 0)

/-- The rows that receive a thick horizontal ten-grid line. -/
def ten_grid_horizontal_cells (logical_first_coordinate_y : Int) (height : Nat) :
    List Nat :=
  (List.range height).filter
    (fun (bitmap_y : Nat) =>
      (logical_first_coordinate_y + (bitmap_y : Int)).tmod 10 == 0)

/-- The x-positions of all 1-unit vertical grid lines drawn by
`create_cross_stitch_pattern`: one at `TILE_SIZE * x` (the left edge of cell
`x`) for each of the `width` cells, plus the closing line at
`scaled_bitmap_width - 1` (the far right edge). -/
def one_grid_vertical_line_positions (width : Nat) : List Int :=
  (List.range width).map (fun (x : Nat) => (TILE_SIZE : Int) * (x : Int)) ++
    [(TILE_SIZE : Int) * (width : Int) - 1]

/-- The y-positions of all 1-unit horizontal grid lines. -/
def one_grid_horizontal_line_positions (height : Nat) : List Int :=
  (List.range height).map (fun (y : Nat) => (TILE_SIZE : Int) * (y : Int)) ++
    [(TILE_SIZE : Int) * (height : Int) - 1]

/-- Whether the closing thick vertical ten-grid line is drawn at the far right
edge (`(logical_first_coordinate_x + bitmap.width) % 10 == 0`). -/
def ten_grid_closes_right (logical_first_coordinate_x : Int) (width : Nat) :
    Bool :=
  (logical_first_coordinate_x + (width : Int)).tmod 10 == 0

/-- Whether the closing thick horizontal ten-grid line is drawn at the bottom
edge. -/
def ten_grid_closes_bottom (logical_first_coordinate_y : Int) (height : Nat) :
    Bool :=
  (logical_first_coordinate_y + (height : Int)).tmod 10 == 0

/-- C3: with the thick ten-grid enabled, a cell receives a thick vertical
(resp. horizontal) grid line exactly when its logical coordinate — the logical
origin plus its buffer-relative index — is a multiple of 10; shifting the
logical origin by any multiple of 10 leaves the set of thick-lined cells
unchanged, and a shift by any `s` moves it to the cells with
`10 ∣ (origin + s + cell)`. -/
theorem ten_grid_logical_alignment :
    (∀ (first : Int) (width x : Nat),
      x ∈ ten_grid_vertical_cells first width ↔
        x < width ∧ (10 : Int) ∣ (first + (x : Int))) ∧
    (∀ (first : Int) (height y : Nat),
      y ∈ ten_grid_horizontal_cells first height ↔
        y < height ∧ (10 : Int) ∣ (first + (y : Int))) ∧
    (∀ (first k : Int) (width : Nat),
      ten_grid_vertical_cells (first + 10 * k) width =
        ten_grid_vertical_cells first width) ∧
    (∀ (first k : Int) (height : Nat),
      ten_grid_horizontal_cells (first + 10 * k) height =
        ten_grid_horizontal_cells first height) ∧
    (∀ (first s : Int) (width x : Nat),
      x ∈ ten_grid_vertical_cells (first + s) width ↔
        x < width ∧ (10 : Int) ∣ (first + s + (x : Int))) := by
  have hmem : ∀ (first : Int) (width x : Nat),
      x ∈ ten_grid_vertical_cells first width ↔
        x < width ∧ (10 : Int) ∣ (first + (x : Int)) := by
    intro first width x
    rw [ten_grid_vertical_cells, List.mem_filter, List.mem_range,
      tmod_ten_eq_zero_iff]
  have hshift : ∀ (first k : Int) (width : Nat),
      ten_grid_vertical_cells (first + 10 * k) width =
        ten_grid_vertical_cells first width := by
    intro first k width
    unfold ten_grid_vertical_cells
    refine List.filter_congr ?_
    intro x hx
    rw [Bool.eq_iff_iff, tmod_ten_eq_zero_iff, tmod_ten_eq_zero_iff]
    omega
  refine ⟨hmem, ?_, hshift, ?_, ?_⟩
  · intro first height y
    rw [ten_grid_horizontal_cells, List.mem_filter, List.mem_range,
      tmod_ten_eq_zero_iff]
  · intro first k height
    unfold ten_grid_horizontal_cells
    refine List.filter_congr ?_
    intro y hy
    rw [Bool.eq_iff_iff, tmod_ten_eq_zero_iff, tmod_ten_eq_zero_iff]
    omega
  · intro first s width x
    exact hmem (first + s) width x

/-- Witness for C3 at concrete inputs: with origin 3 and width 12, cell 7
(logical coordinate 10) is thick-lined, and shifting the origin by 40 keeps
the thick cells unchanged. -/
theorem ten_grid_witness :
    7 ∈ ten_grid_vertical_cells 3 12 ∧
    ten_grid_vertical_cells (3 + 10 * 4) 12 = ten_grid_vertical_cells 3 12 :=
  ⟨(ten_grid_logical_alignment.1 3 12 7).mpr (by decide),
   ten_grid_logical_alignment.2.2.1 3 4 12⟩

/-- C4: an N-cell-wide canvas draws exactly N+1 distinct vertical 1-unit grid
lines — one at the left edge of each of the N cells plus one closing line at
the far right edge — and symmetrically N+1 horizontal lines for N rows; the
closing thick ten-grid line at the far right (resp. bottom) edge is drawn
exactly when the final logical coordinate is a multiple of 10. -/
theorem one_grid_closing_lines (width height : Nat) (first_x first_y : Int)
    (hw : 0 < width) (hh : 0 < height) :
    (one_grid_vertical_line_positions width).length = width + 1 ∧
    (one_grid_vertical_line_positions width).Nodup ∧
    (∀ x : Nat, x < width →
      ((TILE_SIZE : Int) * (x : Int)) ∈ one_grid_vertical_line_positions width) ∧
    ((TILE_SIZE : Int) * (width : Int) - 1) ∈
      one_grid_vertical_line_positions width ∧
    (one_grid_horizontal_line_positions height).length = height + 1 ∧
    (one_grid_horizontal_line_positions height).Nodup ∧
    (∀ y : Nat, y < height →
      ((TILE_SIZE : Int) * (y : Int)) ∈ one_grid_horizontal_line_positions height) ∧
    ((TILE_SIZE : Int) * (height : Int) - 1) ∈
      one_grid_horizontal_line_positions height ∧
    (ten_grid_closes_right first_x width = true ↔
      (10 : Int) ∣ (first_x + (width : Int))) ∧
    (ten_grid_closes_bottom first_y height = true ↔
      (10 : Int) ∣ (first_y + (height : Int))) := by
  have hnodupv : ∀ n : Nat, 0 < n →
      ((List.range n).map (fun (x : Nat) => (TILE_SIZE : Int) * (x : Int)) ++
        [(TILE_SIZE : Int) * (n : Int) - 1]).Nodup := by
    intro n hn
    rw [List.nodup_append]
    refine ⟨?_, List.nodup_singleton _, ?_⟩
    · refine List.Nodup.map ?_ (List.nodup_range n)
      intro a b hab
      simp only [TILE_SIZE] at hab
      omega
    · intro a ha hb
      rw [List.mem_map] at ha
      obtain ⟨x, hx, rfl⟩ := ha
      rw [List.mem_range] at hx
      rw [List.mem_singleton] at hb
      simp only [TILE_SIZE] at hb
      omega
  have hmemv : ∀ (n x : Nat), x < n →
      ((TILE_SIZE : Int) * (x : Int)) ∈
        ((List.range n).map (fun (x : Nat) => (TILE_SIZE : Int) * (x : Int)) ++
          [(TILE_SIZE : Int) * (n : Int) - 1]) := by
    intro n x hx
    rw [List.mem_append, List.mem_map]
    exact Or.inl ⟨x, List.mem_range.mpr hx, rfl⟩
  have hclose : ∀ n : Nat,
      ((TILE_SIZE : Int) * (n : Int) - 1) ∈
        ((List.range n).map (fun (x : Nat) => (TILE_SIZE : Int) * (x : Int)) ++
          [(TILE_SIZE : Int) * (n : Int) - 1]) := by
    intro n
    rw [List.mem_append, List.mem_singleton]
    exact Or.inr rfl
  refine ⟨?_, hnodupv width hw, hmemv width, hclose width,
    ?_, hnodupv height hh, hmemv height, hclose height, ?_, ?_⟩
  · simp [one_grid_vertical_line_positions]
  · simp [one_grid_horizontal_line_positions]
  · rw [ten_grid_closes_right, tmod_ten_eq_zero_iff]
  · rw [ten_grid_closes_bottom, tmod_ten_eq_zero_iff]

/-- Witness for C4 at concrete inputs: a 3-wide, 2-tall canvas has 4 vertical
line positions, and with origin -2 the bottom edge (final logical coordinate
0) closes the ten-grid. -/
theorem one_grid_closing_lines_witness :
    (one_grid_vertical_line_positions 3).length = 3 + 1 ∧
    ten_grid_closes_bottom (-2) 2 = true :=
  ⟨(one_grid_closing_lines 3 2 7 (-2) (by decide) (by decide)).1,
   ((one_grid_closing_lines 3 2 7 (-2) (by decide) (by decide)).2.2.2.2.2.2.2.2.2).mpr
     (by decide)⟩

/-- Modelled from the spec: cottontail `ceil_to_multiple_of_target_i32` — the
smallest multiple of `target` that is not below `value`. -/
def ceil_to_multiple_of_target_i32 (value target : Int) : Int :=
  -(target * Int.fdiv (-value) target)

/-- Modelled from the spec: cottontail `floor_to_multiple_of_target_i32` — the
largest multiple of `target` that is not above `value`. -/
def floor_to_multiple_of_target_i32 (value target : Int) : Int :=
  target * Int.fdiv value target

/-- The labelled grid lines of one axis in `place_grid_labels_in_pattern`:
every line whose logical coordinate is a multiple of 10, then the first
(resp. last) line when the partial leading (resp. trailing) block spans more
than 3 logical units (the x- and y-axis blocks of the source are identical up
to the axis). Each element is `(buffer-relative line index, logical
coordinate)`. -/
def label_coords_axis (logical_first_coordinate : Int) (grid_count : Nat) :
    List (Nat × Int) :=
  let base := (List.range (grid_count + 1)).filterMap
    (fun (i : Nat) =>
      if (logical_first_coordinate + (i : Int)).tmod 10 == 0 then
        some (i, logical_first_coordinate + (i : Int))
      else none)
  let logical_last_coordinate := logical_first_coordinate + (grid_count : Int)
  let pixel_count_in_first_block :=
    (ceil_to_multiple_of_target_i32 logical_first_coordinate 10 -
      logical_first_coordinate).natAbs
  let base2 :=
    if 3 < pixel_count_in_first_block then base ++ [(0, logical_first_coordinate)]
    else base
  let pixel_count_in_last_block :=
    (floor_to_multiple_of_target_i32 logical_last_coordinate 10 -
      logical_last_coordinate).natAbs
  if 3 < pixel_count_in_last_block then
    base2 ++ [(grid_count, logical_last_coordinate)]
  else base2

/-- The texts of the horizontal-axis (top and bottom edge) labels: the decimal
string of the logical coordinate, not negated. -/
def x_axis_label_texts (logical_first_coordinate_x : Int) (grid_width : Nat) :
    List (Nat × String) :=
  (label_coords_axis logical_first_coordinate_x grid_width).map
    (fun p => (p.1, toString p.2))

/-- The texts of the vertical-axis (left and right edge) labels: pixel space
is y-down but the pattern shows a Cartesian y-up view, so the drawn text is
the decimal string of the negated logical coordinate
(`(-logical_coord_y).to_string()`). -/
def y_axis_label_texts (logical_first_coordinate_y : Int) (grid_height : Nat) :
    List (Nat × String) :=
  (label_coords_axis logical_first_coordinate_y grid_height).map
    (fun p => (p.1, toString (-p.2)))

/-- C5: every vertical-axis label drawn for a line at logical y-coordinate `c`
shows the decimal string of `-c`, and conversely every labelled line is drawn
with that negated text; horizontal-axis labels are not negated. -/
theorem y_axis_labels_negated :
    (∀ (first : Int) (h i : Nat) (t : String),
      (i, t) ∈ y_axis_label_texts first h →
      ∃ c : Int, (i, c) ∈ label_coords_axis first h ∧ t = toString (-c)) ∧
    (∀ (first : Int) (w i : Nat) (t : String),
      (i, t) ∈ x_axis_label_texts first w →
      ∃ c : Int, (i, c) ∈ label_coords_axis first w ∧ t = toString c) ∧
    (∀ (first : Int) (h : Nat) (p : Nat × Int),
      p ∈ label_coords_axis first h →
      (p.1, toString (-p.2)) ∈ y_axis_label_texts first h) := by
  refine ⟨?_, ?_, ?_⟩
  · intro first h i t hmem
    rw [y_axis_label_texts, List.mem_map] at hmem
    obtain ⟨p, hp, heq⟩ := hmem
    rw [Prod.mk.injEq] at heq
    refine ⟨p.2, ?_, heq.2.symm⟩
    have hpe : (i, p.2) = p := by rw [← heq.1]
    rw [hpe]
    exact hp
  · intro first w i t hmem
    rw [x_axis_label_texts, List.mem_map] at hmem
    obtain ⟨p, hp, heq⟩ := hmem
    rw [Prod.mk.injEq] at heq
    refine ⟨p.2, ?_, heq.2.symm⟩
    have hpe : (i, p.2) = p := by rw [← heq.1]
    rw [hpe]
    exact hp
  · intro first h p hp
    rw [y_axis_label_texts, List.mem_map]
    exact ⟨p, hp, rfl⟩

/-- Witness for C5 at a concrete input: with origin -3 and 10 grid rows the
last line sits at logical y = 7 and is drawn with the text "-7". -/
theorem y_axis_labels_witness :
    (10, "-7") ∈ y_axis_label_texts (-3) 10 :=
  y_axis_labels_negated.2.2 (-3) 10 (10, 7) (by decide)

/-- The four bounds assertions at the top of `blit_symbol` (`pos.x >= 0`,
`pos.y >= 0`, `pos.x + symbol width <= image width`,
`pos.y + symbol height <= image height`). -/
def blit_symbol_bounds_ok (symbol : Bitmap) (dest_width dest_height : Nat)
    (pos : Int × Int) : Prop :=
  0 ≤ pos.1 ∧ 0 ≤ pos.2 ∧
    pos.1 + (symbol.width : Int) ≤ (dest_width : Int) ∧
    pos.2 + (symbol.height : Int) ≤ (dest_height : Int)

/-- The positions at which `create_cross_stitch_pattern` stamps a symbol: for
every source pixel `(x, y)` with nonzero alpha (when the variant draws
symbols), it calls `blit_symbol` at `(TILE_SIZE*x, TILE_SIZE*y)` into the
scaled buffer of size `TILE_SIZE*width × TILE_SIZE*height`. -/
def pattern_symbol_stamp_positions (bitmap : Bitmap) (add_symbol : Bool) :
    List (Int × Int) :=
  (loopPairs bitmap.height bitmap.width).filterMap
    (fun yx =>
      if add_symbol ∧ (bitmap.get yx.2 yx.1).a ≠ 0 then
        some ((TILE_SIZE : Int) * yx.2, (TILE_SIZE : Int) * yx.1)
      else none)

/-- C10: every symbol stamp of `create_cross_stitch_pattern` is at
`(TILE_SIZE*x, TILE_SIZE*y)` with `0 ≤ x < width` and `0 ≤ y < height`, into
the `TILE_SIZE*width × TILE_SIZE*height` scaled buffer; hence whenever the
assigned symbol bitmap is at most TILE_SIZE×TILE_SIZE, the four bounds
assertions of `blit_symbol` hold at every stamp. -/
theorem pattern_stamp_positions_safe (bitmap : Bitmap) (add_symbol : Bool)
    (symbol : Bitmap) (pos : Int × Int)
    (hsw : symbol.width ≤ TILE_SIZE) (hsh : symbol.height ≤ TILE_SIZE)
    (hpos : pos ∈ pattern_symbol_stamp_positions bitmap add_symbol) :
    blit_symbol_bounds_ok symbol (TILE_SIZE * bitmap.width)
      (TILE_SIZE * bitmap.height) pos := by
  rw [pattern_symbol_stamp_positions, List.mem_filterMap] at hpos
  obtain ⟨yx, hyx, hf⟩ := hpos
  obtain ⟨py, px⟩ := yx
  rw [mem_loopPairs] at hyx
  by_cases hcond : (add_symbol : Prop) ∧ (bitmap.get px py).a ≠ 0
  · rw [if_pos hcond] at hf
    obtain rfl := Option.some.inj hf
    obtain ⟨hy0, hy1, hx0, hx1⟩ := hyx
    refine ⟨?_, ?_, ?_, ?_⟩ <;>
      simp only [TILE_SIZE] at hsw hsh ⊢ <;> omega
  · rw [if_neg hcond] at hf
    exact absurd hf (by simp)

/-- Witness for C10 at a concrete input: a 1×1 opaque image stamps at (0, 0)
and a full 16×16 symbol fits the 16×16 scaled buffer. -/
theorem pattern_stamp_positions_witness :
    blit_symbol_bounds_ok (Bitmap.new_filled 16 16 PixelRGBA.black) 16 16 (0, 0) :=
  pattern_stamp_positions_safe ⟨1, 1, [⟨255, 0, 0, 255⟩]⟩ true
    (Bitmap.new_filled 16 16 PixelRGBA.black) (0, 0) (by decide) (by decide)
    (by decide)

/-- `SPLIT_SEGMENT_WIDTH` from the source (maximum segment width in cells). -/
def SPLIT_SEGMENT_WIDTH : Nat := 60

/-- `SPLIT_SEGMENT_HEIGHT` from the source (maximum segment height in cells). -/
def SPLIT_SEGMENT_HEIGHT : Nat := 80

/-- `LEGEND_BLOCK_ENTRY_COUNT` from the source (legend entries per block). -/
def LEGEND_BLOCK_ENTRY_COUNT : Nat := 5

/-- Modelled from the spec: cottontail `Bitmap::to_segments` — tile the image
row-major into segments no larger than `max_w × max_h`; every segment is
tagged with its (column, row) tile coordinate. Only the coordinates are
modelled. -/
def to_segments_coordinates (width height max_w max_h : Nat) :
    List (Nat × Nat) :=
  let cols := (width + max_w - 1) / max_w
  let rows := (height + max_h - 1) / max_h
  (List.range rows).flatMap
    (fun (row : Nat) => (List.range cols).map (fun (col : Nat) => (col, row)))

/-- The output-file suffixes written by one `create_cross_stitch_pattern_set`
call: the colorized, black-and-white and colorized-no-symbols variants, plus
the paint-by-numbers variant when requested. -/
def cross_stitch_pattern_set_suffixes (output_filename_suffix : String)
    (create_paint_by_number_set : Bool) : List String :=
  ["cross_stitch_colorized_" ++ output_filename_suffix,
   "cross_stitch_" ++ output_filename_suffix,
   "cross_stitch_colorized_no_symbols_" ++ output_filename_suffix] ++
    (if create_paint_by_number_set then
      ["paint_by_numbers_" ++ output_filename_suffix]
    else [])

/-- The output files of `create_patterns_dir` (as name suffixes): the legend,
the complete set including paint-by-numbers, and per-segment sets (without
paint-by-numbers) only when the image splits into more than one segment. -/
def create_patterns_dir_suffixes (width height : Nat) : List String :=
  let segments :=
    to_segments_coordinates width height SPLIT_SEGMENT_WIDTH SPLIT_SEGMENT_HEIGHT
  ["legend"] ++ cross_stitch_pattern_set_suffixes "complete" true ++
    (if 1 < segments.length then
      (List.range segments.length).flatMap
        (fun (i : Nat) =>
          cross_stitch_pattern_set_suffixes ("segment_" ++ toString (i + 1)) false)
    else [])

/-- The statistics text at the top of the legend
(`format "Size:     …x…\n\nColors:   …\n\nStitches: …\n\n\n"`). -/
def legend_stats_text (width height color_count stitch_count : Nat) : String :=
  "Size:     " ++ toString width ++ "x" ++ toString height ++
    "\n\nColors:   " ++ toString color_count ++
    "\n\nStitches: " ++ toString stitch_count ++ "\n\n\n"

/-- The stitch count reported by the legend: the fold summing all palette
entry counts. -/
def legend_stitch_count (color_mappings : List (PixelRGBA × ColorInfo)) : Nat :=
  color_mappings.foldl (fun acc entry => acc + entry.2.count) 0

/-- The legend's color blocks: entries grouped into blocks of
`LEGEND_BLOCK_ENTRY_COUNT` (`chunks(5)`). -/
def legend_blocks (color_infos : List ColorInfo) : List (List ColorInfo) :=
  color_infos.toChunks LEGEND_BLOCK_ENTRY_COUNT

/-- The number of block columns per legend row
(`block_bitmaps.len().max(4)`). -/
def legend_num_columns (block_count : Nat) : Nat := max block_count 4

/-- The 3×2 fully-opaque example image with exactly 3 distinct colors used by
the round-trip scenario. -/
def example_image_3x2 : Bitmap :=
  ⟨3, 2, [⟨255, 0, 0, 255⟩, ⟨255, 0, 0, 255⟩, ⟨0, 255, 0, 255⟩,
          ⟨0, 255, 0, 255⟩, ⟨0, 0, 255, 255⟩, ⟨0, 0, 255, 255⟩]⟩

/-- Six distinct 1×1 symbol bitmaps (a pool of at least 6 symbols). -/
def example_symbols : List Bitmap :=
  [⟨1, 1, [⟨0, 0, 0, 255⟩]⟩, ⟨1, 1, [⟨1, 0, 0, 255⟩]⟩, ⟨1, 1, [⟨2, 0, 0, 255⟩]⟩,
   ⟨1, 1, [⟨3, 0, 0, 255⟩]⟩, ⟨1, 1, [⟨4, 0, 0, 255⟩]⟩, ⟨1, 1, [⟨5, 0, 0, 255⟩]⟩]

/-- The color mappings computed for the round-trip scenario. -/
def example_color_mappings : Option (List (PixelRGBA × ColorInfo)) :=
  create_color_mappings_from_image example_image_3x2 example_symbols
    example_symbols [] []

/-- C8: for the 3×2 opaque image with 3 distinct colors, 6 symbols per pool
and a maximum segment size larger than the image, segmentation yields exactly
one segment, the complete output set is the 4 pattern-variant files plus one
legend file, the legend statistics text reads
"Size: 3x2 / Colors: 3 / Stitches: 6" with the stitch count equal to the sum
of all palette entry counts, and the 3 entries form one block of 5 arranged in
max(1, 4) = 4 columns. -/
theorem legend_roundtrip_3x2 :
    (to_segments_coordinates 3 2 SPLIT_SEGMENT_WIDTH SPLIT_SEGMENT_HEIGHT).length
      = 1 ∧
    create_patterns_dir_suffixes 3 2 =
      ["legend", "cross_stitch_colorized_complete", "cross_stitch_complete",
       "cross_stitch_colorized_no_symbols_complete",
       "paint_by_numbers_complete"] ∧
    example_color_mappings.map (fun cm => cm.length) = some 3 ∧
    example_color_mappings.map (fun cm => legend_stitch_count cm) = some 6 ∧
    example_color_mappings.map (fun cm =>
      legend_stats_text example_image_3x2.width example_image_3x2.height
        cm.length (legend_stitch_count cm)) =
      some "Size:     3x2\n\nColors:   3\n\nStitches: 6\n\n\n" ∧
    example_color_mappings.map (fun cm =>
      (legend_blocks (cm.map (fun e => e.2))).length) = some 1 ∧
    example_color_mappings.map (fun cm =>
      legend_num_columns (legend_blocks (cm.map (fun e => e.2))).length) =
      some 4 ∧
    example_color_mappings.map (fun cm => legend_stitch_count cm) =
      example_color_mappings.map (fun cm =>
        cm.foldl (fun acc entry => acc + entry.2.count) 0) := by
  refine ⟨by decide, by decide, by decide, by decide, by decide, by decide,
    by decide, rfl⟩

/-- Modelled from the spec: cottontail `Bitmap::extended` — a new buffer
enlarged by the given padding on each side, filled with `fill`, with the
original content translated by `(left, top)`. -/
def Bitmap.extended (bmp : Bitmap) (left top right bottom : Nat)
    (fill : PixelRGBA) : Bitmap :=
  let new_width := bmp.width + left + right
  let new_height := bmp.height + top + bottom
  ⟨new_width, new_height,
    (List.range new_height).flatMap (fun (y : Nat) =>
      (List.range new_width).map (fun (x : Nat) =>
        if left ≤ x ∧ x < left + bmp.width ∧ top ≤ y ∧ y < top + bmp.height then
          bmp.get ((x : Int) - (left : Int)) ((y : Int) - (top : Int))
        else fill))⟩

/-- The stitch placement plan of `create_cross_stitch_pattern_preview`, with
the PRNG stepping function as an explicit parameter (modelled from the spec:
the cottontail `Random` is a deterministic PRNG seeded from a u64, but its
algorithm lives outside this repository; `step state bound = (value, state)`).
The bitmap is padded by 10 on each side; scanning row-major, every pixel with
nonzero alpha consumes one bounded random number (bounded by the number of
that color's stitch variants, `IndexMap::get` + `unwrap` modelled as a keyed
lookup defaulting to 0) and yields the stitch center and chosen variant
index. -/
def preview_stitch_plan_with_seed (step : Nat → Nat → Nat × Nat) (seed : Nat)
    (bitmap : Bitmap) (color_mappings : List (PixelRGBA × ColorInfo))
    (tile_width tile_height : Nat) : List ((Int × Int) × Nat) :=
  let padded := bitmap.extended 10 10 10 10 PixelRGBA.transparent
  ((loopPairs padded.height padded.width).foldl
    (fun acc yx =>
      let color := padded.get yx.2 yx.1
      if color.a ≠ 0 then
        let stitches_count :=
          ((color_mappings.find? (fun e => e.1 == color)).map
            (fun e => e.2.stitches_premultiplied.length)).getD 0
        let vs := step acc.2 stitches_count
        (acc.1 ++
          [(((tile_width : Int) * yx.2 + (tile_width : Int) / 2,
             (tile_height : Int) * yx.1 + (tile_width : Int) / 2), vs.1)],
          vs.2)
      else acc)
    ([], seed)).1

/-- The plan as the source runs it: the PRNG is freshly seeded with the fixed
seed 1234 (`Random::new_from_seed(1234)`). -/
def preview_stitch_plan (step : Nat → Nat → Nat × Nat) (bitmap : Bitmap)
    (color_mappings : List (PixelRGBA × ColorInfo))
    (tile_width tile_height : Nat) : List ((Int × Int) × Nat) :=
  preview_stitch_plan_with_seed step 1234 bitmap color_mappings tile_width
    tile_height

/-- C9: the stitched-preview composition is deterministic — the only candidate
nondeterminism, the texture-variant choice, is drawn from a PRNG freshly
seeded with the fixed seed 1234, so any two runs on the same bitmap, palette
and resources produce the identical stitch plan (and hence byte-identical
background, stitches and combined bitmaps). -/
theorem preview_stitch_plan_deterministic (step : Nat → Nat → Nat × Nat)
    (b1 b2 : Bitmap) (cm1 cm2 : List (PixelRGBA × ColorInfo))
    (tw1 tw2 th1 th2 : Nat)
    (hb : b1 = b2) (hc : cm1 = cm2) (ht : tw1 = tw2) (hh : th1 = th2) :
    preview_stitch_plan step b1 cm1 tw1 th1 =
      preview_stitch_plan step b2 cm2 tw2 th2 ∧
    preview_stitch_plan step b1 cm1 tw1 th1 =
      preview_stitch_plan_with_seed step 1234 b1 cm1 tw1 th1 := by
  subst hb
  subst hc
  subst ht
  subst hh
  exact ⟨rfl, rfl⟩

/-- Witness for C9 at a concrete input: two runs of the plan on a 1×1 opaque
bitmap with a concrete PRNG agree and coincide with seeding at 1234. -/
theorem preview_stitch_plan_witness :
    preview_stitch_plan (fun st b => (st % (b + 1), st + 1))
      ⟨1, 1, [⟨1, 2, 3, 255⟩]⟩ [] 8 8 =
      preview_stitch_plan_with_seed (fun st b => (st % (b + 1), st + 1)) 1234
        ⟨1, 1, [⟨1, 2, 3, 255⟩]⟩ [] 8 8 :=
  (preview_stitch_plan_deterministic (fun st b => (st % (b + 1), st + 1))
    ⟨1, 1, [⟨1, 2, 3, 255⟩]⟩ ⟨1, 1, [⟨1, 2, 3, 255⟩]⟩ [] [] 8 8 8 8
    rfl rfl rfl rfl).2

end PixieStitch
